import Mathlib

/-!
# Glamp.LV2 plugin UI (`src/glamp_ui.c`)

A shallow embedding of the UI controller of `glamp_ui.c`.

* The one heap object of the program, the `GlampUI` struct, is passed explicitly
  through every function and handed back by it.
* Every call that leaves the translation unit (libc, GLFW, OpenGL, the host's
  resize function) is recorded, in program order, in a list of `Call`s.
* The results of the external calls that `instantiate` branches on are the
  fields of `Backend`.
* Pointers are addresses (`Ptr`), `0` being `NULL`; C `int` values are `Int`.
* A `float` or `double` value is the rational number it stands for, and
  floating-point operations round as IEEE 754 prescribes (`binary32` for
  `float`, `binary64` for `double`, round to nearest, ties to even), with
  `FLT_EVAL_METHOD` 0: the brightness is a `float`, the sum and the `fmod` of
  `idle` are carried out in `double`. Infinities and NaN are left out; no value
  of the program comes near the overflow threshold.
-/

namespace Glamp

/-! ## Data model -/

/-- A C pointer, as its address; `0` is `NULL`. -/
abbrev Ptr := Nat

/-- The macro `GLAMP_UI_URI` of `glamp_ui.c`. -/
def GLAMP_UI_URI : String := "http://drobilla.net/plugins/glamp#ui"

/-- Modelled from the spec: the key of the "parent window handle" capability.
The macro `LV2_UI__parent` comes from the LV2 header `ui.h`, which is not under
`src/`; this is the value that header gives it. -/
def LV2_UI__parent : String := "http://lv2plug.in/ns/extensions/ui#parent"

/-- Modelled from the spec: the key of the "resize negotiation" capability.
The macro `LV2_UI__resize` comes from the LV2 header `ui.h`, which is not under
`src/`; this is the value that header gives it. -/
def LV2_UI__resize : String := "http://lv2plug.in/ns/extensions/ui#resize"

/-- Modelled from the spec: the key of the "idle/tick" capability.
The macro `LV2_UI__idleInterface` comes from the LV2 header `ui.h`, which is
not under `src/`; this is the value that header gives it. -/
def LV2_UI__idleInterface : String :=
  "http://lv2plug.in/ns/extensions/ui#idleInterface"

/-- The struct `LV2_Feature` of the host ABI: a URI and an untyped data pointer. -/
structure LV2_Feature where
  URI : String
  data : Ptr
  deriving DecidableEq, Repr

/-- The struct `GlampUI`. -/
structure GlampUI where
  view : Ptr
  write : Ptr
  controller : Ptr
  width : Int
  height : Int
  brightness : ℚ
  exit : Bool
  deriving DecidableEq

/-- The OpenGL enumerators the program passes. -/
inductive GLenum where
  | GL_PROJECTION
  | GL_MODELVIEW
  | GL_DEPTH_TEST
  | GL_COLOR_BUFFER_BIT
  | GL_QUADS
  deriving DecidableEq, Repr

/-- The GLFW window hints the program sets. -/
inductive GLFWhint where
  | GLFW_NATIVE_PARENT_HANDLE
  | GLFW_CONTEXT_VERSION_MAJOR
  | GLFW_CONTEXT_VERSION_MINOR
  deriving DecidableEq, Repr

/-- One call out of `glamp_ui.c`, with its arguments. -/
inductive Call where
  | calloc
  | free
  | fprintf (stderr_msg : String)
  | glfwSetErrorCallback
  | glfwInit
  | glfwWindowHintPointer (hint : GLFWhint) (value : Ptr)
  | glfwWindowHint (hint : GLFWhint) (value : Int)
  | glfwCreateWindow (width height : Int) (title : String)
  | glfwSetWindowUserPointer (view : Ptr)
  | glfwGetWindowUserPointer (view : Ptr)
  | glfwSetWindowRefreshCallback (view : Ptr)
  | glfwSetWindowSizeCallback (view : Ptr)
  | glfwMakeContextCurrent (view : Ptr)
  | glfwSwapInterval (interval : Int)
  | ui_resize (resize : Ptr) (width height : Int)
  | glfwGetWindowNativeHandle (view : Ptr)
  | glfwSwapBuffers (view : Ptr)
  | glfwPollEvents
  | glMatrixMode (mode : GLenum)
  | glLoadIdentity
  | glViewport (x y width height : Int)
  | glOrtho (left right bottom top near far : ℚ)
  | glDisable (cap : GLenum)
  | glClear (mask : GLenum)
  | glBegin (mode : GLenum)
  | glColor3f (red green blue : ℚ)
  | glVertex2f (x y : ℚ)
  | glEnd
  deriving DecidableEq

/-- What the external calls that `instantiate` branches on return. -/
structure Backend where
  /-- `calloc` returned a block (not `NULL`). -/
  calloc : Bool
  /-- `glfwInit` returned a non-zero value. -/
  glfwInit : Bool
  /-- The window `glfwCreateWindow` returns; `0` when it fails. -/
  glfwCreateWindow : Ptr
  /-- The value of `glfwGetWindowNativeHandle`. -/
  glfwGetWindowNativeHandle : Ptr
  deriving DecidableEq, Repr

/-- A window event waiting in the backend when `glfwPollEvents` runs. -/
inductive Event where
  | refresh
  | size (width height : Int)
  | key (press : Bool) (code : Nat)
  | motion (x y : Int)
  | mouse (button : Int) (press : Bool) (x y : Int)
  | scroll (dx dy : ℚ)
  deriving DecidableEq

/-! ## Floating-point arithmetic -/

/-- Rounding of a rational to the nearest integer, a tie going to the even one. -/
def roundEven (q : ℚ) : Int :=
  if q - ⌊q⌋ < 1 / 2 then ⌊q⌋
  else if 1 / 2 < q - ⌊q⌋ then ⌊q⌋ + 1
  else if ⌊q⌋ % 2 = 0 then ⌊q⌋ else ⌊q⌋ + 1

/-- The exponent of the unit in the last place of `x`, in a binary format with
`p` significand bits and least normal exponent `emin`. -/
def ulpExp (p : ℕ) (emin : Int) (x : ℚ) : Int :=
  max (Int.log 2 |x|) emin - ((p : Int) - 1)

/-- The value of `x` rounded to nearest, ties to even, in a binary format with
`p` significand bits and least normal exponent `emin` (subnormal numbers
included, overflow left out). -/
def roundBinary (p : ℕ) (emin : Int) (x : ℚ) : ℚ :=
  (roundEven (x / 2 ^ ulpExp p emin x) : ℚ) * 2 ^ ulpExp p emin x

/-- Rounding to a `float` (IEEE 754 binary32). -/
def binary32 (x : ℚ) : ℚ := roundBinary 24 (-126) x

/-- Rounding to a `double` (IEEE 754 binary64). -/
def binary64 (x : ℚ) : ℚ := roundBinary 53 (-1022) x

/-- Rounding toward zero, as the quotient of C `fmod` is rounded. -/
def trunc (q : ℚ) : Int := if 0 ≤ q then ⌊q⌋ else ⌈q⌉

/-- The C library function `fmod`: `x - n * y`, where `n` is `x / y` rounded
toward zero. The result of `fmod` is exact in IEEE 754 arithmetic. -/
def fmod (x y : ℚ) : ℚ := x - (trunc (x / y) : ℚ) * y

/-! ## The callbacks -/

/-- The function `onReshape`. -/
def onReshape (self : GlampUI) (_view : Ptr) (width height : Int) :
    GlampUI × List Call :=
  (self,
   [Call.glMatrixMode GLenum.GL_PROJECTION,
    Call.glLoadIdentity,
    Call.glViewport 0 0 width height,
    Call.glOrtho 0 width height 0 0 1,
    Call.glMatrixMode GLenum.GL_MODELVIEW,
    Call.glDisable GLenum.GL_DEPTH_TEST,
    Call.glLoadIdentity])

/-- The function `onDisplay`; `self` is the user pointer of `view`. The corner
coordinates are `double`s, the products with the brightness are `float`
products, and `glColor3f` and `glVertex2f` take `float` arguments. -/
def onDisplay (self : GlampUI) (view : Ptr) : GlampUI × List Call :=
  let x2 : ℚ := 2
  let y2 : ℚ := 2
  let x1 : ℚ := binary64 ((self.width : ℚ) - 2)
  let y1 : ℚ := binary64 ((self.height : ℚ) - 2)
  (self,
   [Call.glfwGetWindowUserPointer view,
    Call.glClear GLenum.GL_COLOR_BUFFER_BIT,
    Call.glBegin GLenum.GL_QUADS,
    Call.glColor3f (binary32 (1 * self.brightness))
      (binary32 (binary32 (2 / 10) * self.brightness)) 0,
    Call.glVertex2f (binary32 x1) (binary32 y1),
    Call.glVertex2f (binary32 x1) (binary32 y2),
    Call.glColor3f 0 (binary32 (1 * self.brightness)) 0,
    Call.glVertex2f (binary32 x2) (binary32 y2),
    Call.glVertex2f (binary32 x2) (binary32 y1),
    Call.glEnd,
    Call.glfwSwapBuffers view])

/-! ## Creation -/

/-- One iteration of the feature loop of `instantiate`, on the pair
`(parent, resize)`. -/
def scanStep (acc : Ptr × Ptr) (f : LV2_Feature) : Ptr × Ptr :=
  if f.URI = LV2_UI__parent then (f.data, acc.2)
  else if f.URI = LV2_UI__resize then (acc.1, f.data)
  else acc

/-- The feature loop of `instantiate`: `features` is `none` for a `NULL` array
and otherwise holds the entries before the terminating `NULL`. The result is the
pair `(parent, resize)` after the loop. -/
def scanFeatures (features : Option (List LV2_Feature)) : Ptr × Ptr :=
  match features with
  | none => (0, 0)
  | some fs => fs.foldl scanStep (0, 0)

/-- What `instantiate` gives back: the handle (`none` for `NULL`), the value
stored through `widget` if any, and the calls made. -/
structure Instantiated where
  handle : Option GlampUI
  widget : Option Ptr
  calls : List Call
  deriving DecidableEq

/-- The function `instantiate`. -/
def instantiate (env : Backend) (write_function controller : Ptr)
    (features : Option (List LV2_Feature)) : Instantiated :=
  if env.calloc = false then
    { handle := none, widget := none, calls := [Call.calloc] }
  else
    let self : GlampUI :=
      { view := 0, write := write_function, controller := controller,
        width := 256, height := 32, brightness := 0, exit := false }
    let parent := (scanFeatures features).1
    let resize := (scanFeatures features).2
    if parent = 0 then
      { handle := none, widget := none,
        calls := [Call.calloc,
                  Call.fprintf "error: glamp_ui: No parent window provided\n",
                  Call.free] }
    else if env.glfwInit = false then
      { handle := none, widget := none,
        calls := [Call.calloc, Call.glfwSetErrorCallback, Call.glfwInit,
                  Call.fprintf "error: glamp_ui: Failed to initialize GLFW\n",
                  Call.free] }
    else
      let opened : List Call :=
        [Call.calloc, Call.glfwSetErrorCallback, Call.glfwInit,
         Call.glfwWindowHintPointer GLFWhint.GLFW_NATIVE_PARENT_HANDLE parent,
         Call.glfwWindowHint GLFWhint.GLFW_CONTEXT_VERSION_MAJOR 2,
         Call.glfwWindowHint GLFWhint.GLFW_CONTEXT_VERSION_MINOR 0,
         Call.glfwCreateWindow 640 480 "Glamp"]
      let self : GlampUI := { self with view := env.glfwCreateWindow }
      if self.view = 0 then
        { handle := none, widget := none,
          calls := opened ++
            [Call.fprintf "error: glamp_ui: Failed to create window\n",
             Call.free] }
      else
        let reshaped := onReshape self self.view 640 480
        { handle := some reshaped.1,
          widget := some env.glfwGetWindowNativeHandle,
          calls := opened ++
            [Call.glfwSetWindowUserPointer self.view,
             Call.glfwSetWindowRefreshCallback self.view,
             Call.glfwSetWindowSizeCallback self.view,
             Call.glfwMakeContextCurrent self.view,
             Call.glfwSwapInterval 1] ++
            (if resize ≠ 0 then [Call.ui_resize resize self.width self.height]
             else []) ++
            [Call.glfwMakeContextCurrent self.view] ++
            reshaped.2 ++
            [Call.glfwGetWindowNativeHandle self.view] }

/-! ## The idle interface, port events and extension data -/

/-- The callback GLFW runs for one event: `onDisplay` is the refresh callback
and `onReshape` the size callback registered by `instantiate`; no callback is
registered for keyboard, pointer or scroll events. -/
def dispatch (self : GlampUI) : Event → GlampUI × List Call
  | Event.refresh => onDisplay self self.view
  | Event.size width height => onReshape self self.view width height
  | Event.key _ _ => (self, [])
  | Event.motion _ _ => (self, [])
  | Event.mouse _ _ _ _ => (self, [])
  | Event.scroll _ _ => (self, [])

/-- The GLFW function `glfwPollEvents`: the pending events are handed, in order,
to the registered callbacks. -/
def glfwPollEvents (self : GlampUI) : List Event → GlampUI × List Call
  | [] => (self, [])
  | e :: es =>
    let first := dispatch self e
    let rest := glfwPollEvents first.1 es
    (rest.1, first.2 ++ rest.2)

/-- The right-hand side of the assignment
`self->brightness = fmod(self->brightness + 0.01, 1.0)` of `idle`, for the
brightness `b`: the constant `0.01` is a `double`, the `float` brightness is
added to it in `double`, `fmod` is taken in `double`, and the result is rounded
to the `float` field. -/
def idle_brightness (b : ℚ) : ℚ :=
  binary32 (fmod (binary64 (b + binary64 (1 / 100))) 1)

/-- The function `idle`: the new state, the calls made and the status returned. -/
def idle (self : GlampUI) (pending : List Event) : GlampUI × List Call × Int :=
  let self : GlampUI :=
    { self with brightness := idle_brightness self.brightness }
  let shown := onDisplay self self.view
  let polled := glfwPollEvents shown.1 pending
  (polled.1,
   [Call.glfwMakeContextCurrent self.view] ++ shown.2 ++
     [Call.glfwPollEvents] ++ polled.2,
   0)

/-- The function `port_event`; `buffer` is the content of the buffer passed. -/
def port_event (self : GlampUI) (_port_index _buffer_size _format : Nat)
    (_buffer : List Nat) : GlampUI × List Call :=
  (self, [])

/-- Modelled from the spec: the "idle/tick" capability table, whose sole
operation is `tick(handle) -> statusCode`. The struct `LV2UI_Idle_Interface`
comes from the LV2 header `ui.h`, which is not under `src/`. -/
structure LV2UI_Idle_Interface where
  idle : GlampUI → List Event → GlampUI × List Call × Int

/-- The constant `idle_iface`. -/
def idle_iface : LV2UI_Idle_Interface := { idle := idle }

/-- The function `extension_data`; `none` is `NULL`. -/
def extension_data (uri : String) : Option LV2UI_Idle_Interface :=
  if uri = LV2_UI__idleInterface then some idle_iface else none

/-! ## Sequences of calls by the host and the backend -/

/-- One call into a live UI. -/
inductive Op where
  | idle (pending : List Event)
  | port_event (port_index buffer_size format : Nat) (buffer : List Nat)
  | onReshape (width height : Int)
  deriving DecidableEq

/-- The state after one call. -/
def step (self : GlampUI) : Op → GlampUI
  | Op.idle pending => (idle self pending).1
  | Op.port_event port_index buffer_size format buffer =>
    (port_event self port_index buffer_size format buffer).1
  | Op.onReshape width height => (onReshape self self.view width height).1

/-- The state after a sequence of calls. -/
def run (self : GlampUI) : List Op → GlampUI
  | [] => self
  | op :: ops => run (step self op) ops

/-- The state after consecutive calls of `idle`, one per list of pending
events. -/
def idleAll (self : GlampUI) : List (List Event) → GlampUI
  | [] => self
  | pending :: more => idleAll (idle self pending).1 more

/-- The vertices a list of calls passes to `glVertex2f`, in order. -/
def vertices : List Call → List (ℚ × ℚ)
  | [] => []
  | Call.glVertex2f x y :: cs => (x, y) :: vertices cs
  | _ :: cs => vertices cs

/-- The last entry of a feature list whose URI is `uri`, if there is one. -/
def lastEntry (uri : String) (fs : List LV2_Feature) : Option LV2_Feature :=
  (fs.filter (fun f => f.URI = uri)).getLast?

/-- The data pointer of the last entry whose URI is `uri`; `NULL` if there is
no such entry. -/
def lastData (uri : String) (fs : List LV2_Feature) : Ptr :=
  ((lastEntry uri fs).map (fun f => f.data)).getD 0

/-- Whether a call is a call of `glfwCreateWindow`. -/
def isCreateWindow : Call → Bool
  | Call.glfwCreateWindow _ _ _ => true
  | _ => false

/-- Whether a call is a call of the host's `ui_resize`. -/
def isUiResize : Call → Bool
  | Call.ui_resize _ _ _ => true
  | _ => false

/-- A backend on which allocation, `glfwInit` and `glfwCreateWindow` succeed. -/
def sampleBackend : Backend :=
  { calloc := true, glfwInit := true, glfwCreateWindow := 5,
    glfwGetWindowNativeHandle := 6 }

/-- A feature list with a parent window and a resize capability. -/
def sampleFeatures : Option (List LV2_Feature) :=
  some [{ URI := LV2_UI__parent, data := 3 }, { URI := LV2_UI__resize, data := 4 }]

/-- The struct `instantiate` returns for `sampleBackend`, write function `1`
and controller `2`. -/
def sampleUI : GlampUI :=
  { view := 5, write := 1, controller := 2, width := 256, height := 32,
    brightness := 0, exit := false }

/-! ## Certificates for the brightness update

The brightness values met in the first hundred updates are multiples of 2⁻³⁰.
For such a value `m × 2⁻³⁰` the result of an update that does not wrap is found
and checked in integer arithmetic, every quantity being scaled by 100 × 2⁵². -/

/-- One update of the brightness `m × 2⁻³⁰`, assuming that its sum with 0.01 lies
in the binade of `2 ^ (E - 7)`: the result, as a multiple of 2⁻³⁰, when the
sum is inside that binade and nearer than half a unit in the last place to the
result, each with a margin of 2⁻⁵² for the rounding of the `double` sum;
`none` when these checks fail. -/
def tickCert (E m : ℕ) : Option ℕ :=
  if 100 * 2 ^ (E + 45) + 100 ≤ 100 * 2 ^ 22 * m + 2 ^ 52 ∧
      100 * 2 ^ 22 * m + 2 ^ 52 + 100 < 100 * 2 ^ (E + 46) ∧
      2 * ((2 * (100 * 2 ^ 22 * m + 2 ^ 52) + 100 * 2 ^ (E + 22))
        / (2 * (100 * 2 ^ (E + 22)))) * (100 * 2 ^ (E + 22)) + 200
        < 2 * (100 * 2 ^ 22 * m + 2 ^ 52) + 100 * 2 ^ (E + 22) ∧
      2 * (100 * 2 ^ 22 * m + 2 ^ 52) + 200
        < 2 * ((2 * (100 * 2 ^ 22 * m + 2 ^ 52) + 100 * 2 ^ (E + 22))
          / (2 * (100 * 2 ^ (E + 22)))) * (100 * 2 ^ (E + 22)) + 100 * 2 ^ (E + 22) ∧
      E ≤ 6 then
    some ((2 * (100 * 2 ^ 22 * m + 2 ^ 52) + 100 * 2 ^ (E + 22))
      / (2 * (100 * 2 ^ (E + 22))) * 2 ^ E)
  else none

/-- One update of the brightness `m × 2⁻³⁰`, as a multiple of 2⁻³⁰, found with
the first binade for which `tickCert` succeeds. -/
def tickNat (m : ℕ) : Option ℕ :=
  (List.range 7).findSome? (fun E => tickCert E m)

/-- The brightness after `k` updates from `m × 2⁻³⁰`, as a multiple of 2⁻³⁰. -/
def ticksNat : ℕ → ℕ → Option ℕ
  | 0, m => some m
  | k + 1, m => (tickNat m).bind (ticksNat k)

/-! ## Lemmas -/

theorem parent_ne_resize : LV2_UI__parent ≠ LV2_UI__resize := by decide

theorem lastEntry_append_singleton (uri : String) (fs : List LV2_Feature)
    (f : LV2_Feature) :
    lastEntry uri (fs ++ [f]) = if f.URI = uri then some f else lastEntry uri fs := by
  unfold lastEntry
  by_cases h : f.URI = uri
  · simp [List.filter_append, h]
  · simp [List.filter_append, h]

theorem foldl_scanStep_fst (fs : List LV2_Feature) (acc : Ptr × Ptr) :
    (fs.foldl scanStep acc).1 =
      ((lastEntry LV2_UI__parent fs).map (fun f => f.data)).getD acc.1 := by
  induction fs using List.reverseRecOn with
  | nil => simp [lastEntry]
  | append_singleton fs f ih =>
    rw [List.foldl_append, lastEntry_append_singleton]
    by_cases h : f.URI = LV2_UI__parent
    · simp [scanStep, h]
    · by_cases h2 : f.URI = LV2_UI__resize
      · simp [scanStep, h2, ih, parent_ne_resize.symm]
      · simp [scanStep, h, h2, ih]

theorem foldl_scanStep_snd (fs : List LV2_Feature) (acc : Ptr × Ptr) :
    (fs.foldl scanStep acc).2 =
      ((lastEntry LV2_UI__resize fs).map (fun f => f.data)).getD acc.2 := by
  induction fs using List.reverseRecOn with
  | nil => simp [lastEntry]
  | append_singleton fs f ih =>
    rw [List.foldl_append, lastEntry_append_singleton]
    by_cases h : f.URI = LV2_UI__parent
    · simp [scanStep, h, ih, parent_ne_resize]
    · by_cases h2 : f.URI = LV2_UI__resize
      · simp [scanStep, h2, parent_ne_resize.symm]
      · simp [scanStep, h, h2, ih]

theorem scanFeatures_fst (features : Option (List LV2_Feature)) :
    (scanFeatures features).1 = lastData LV2_UI__parent (features.getD []) := by
  cases features with
  | none => simp [scanFeatures, lastData, lastEntry]
  | some fs => simp [scanFeatures, lastData, foldl_scanStep_fst]

theorem scanFeatures_snd (features : Option (List LV2_Feature)) :
    (scanFeatures features).2 = lastData LV2_UI__resize (features.getD []) := by
  cases features with
  | none => simp [scanFeatures, lastData, lastEntry]
  | some fs => simp [scanFeatures, lastData, foldl_scanStep_snd]

theorem lastEntry_eq_none_of_absent (uri : String) (fs : List LV2_Feature)
    (h : ∀ f ∈ fs, f.URI ≠ uri) : lastEntry uri fs = none := by
  unfold lastEntry
  have : fs.filter (fun f => decide (f.URI = uri)) = [] := by
    rw [List.filter_eq_nil_iff]
    intro f hf
    simpa using h f hf
  rw [this]
  rfl

/-! ## Creation: the parent-window check -/

/-- C1: for every feature list, the `NULL` list included, that holds no entry
with the parent-window URI, `instantiate` returns `NULL` (and stores nothing
through `widget`), whatever else the list holds; on that path `glfwInit` is
not called, no window is created and no size is proposed to the host. -/
theorem instantiate_without_parent (env : Backend) (write_function controller : Ptr)
    (features : Option (List LV2_Feature))
    (h : ∀ f ∈ features.getD [], f.URI ≠ LV2_UI__parent) :
    (instantiate env write_function controller features).handle = none ∧
    (instantiate env write_function controller features).widget = none ∧
    Call.glfwInit ∉ (instantiate env write_function controller features).calls ∧
    (∀ c ∈ (instantiate env write_function controller features).calls,
      isCreateWindow c = false) ∧
    (∀ c ∈ (instantiate env write_function controller features).calls,
      isUiResize c = false) := by
  have hp : (scanFeatures features).1 = 0 := by
    rw [scanFeatures_fst, lastData, lastEntry_eq_none_of_absent _ _ h]
    rfl
  unfold instantiate
  by_cases hc : env.calloc = false
  · simp [hc, isCreateWindow, isUiResize]
  · simp [hc, hp, isCreateWindow, isUiResize]

/-- C1 at a list that holds a resize capability and an unrelated entry but no
parent window, with a backend that would succeed. -/
theorem instantiate_without_parent_witness :
    (∀ f ∈ (some [LV2_Feature.mk LV2_UI__resize 7,
        LV2_Feature.mk GLAMP_UI_URI 9]).getD [], f.URI ≠ LV2_UI__parent) ∧
    (instantiate (Backend.mk true true 5 6) 1 2
      (some [LV2_Feature.mk LV2_UI__resize 7, LV2_Feature.mk GLAMP_UI_URI 9])).handle
      = none ∧
    (instantiate (Backend.mk true true 5 6) 1 2
      (some [LV2_Feature.mk LV2_UI__resize 7, LV2_Feature.mk GLAMP_UI_URI 9])).calls
      = [Call.calloc, Call.fprintf "error: glamp_ui: No parent window provided\n",
         Call.free] :=
  ⟨by decide,
   (instantiate_without_parent (Backend.mk true true 5 6) 1 2
      (some [LV2_Feature.mk LV2_UI__resize 7, LV2_Feature.mk GLAMP_UI_URI 9])
      (by decide)).1,
   by decide⟩

theorem scanFeatures_fst_ne_zero_iff (features : Option (List LV2_Feature)) :
    (scanFeatures features).1 ≠ 0 ↔
      ∃ p, lastEntry LV2_UI__parent (features.getD []) = some p ∧ p.data ≠ 0 := by
  rw [scanFeatures_fst, lastData]
  cases lastEntry LV2_UI__parent (features.getD []) with
  | none => simp
  | some p => simp

/-- C10: the feature loop of `instantiate` leaves in `parent` the data pointer
of the last entry whose URI is the parent-window URI (`NULL` if there is none)
and in `resize` the data pointer of the last entry whose URI is the resize URI.
Once the struct is allocated, creation gets past the parent check (it goes on to
`glfwSetErrorCallback` instead of printing the missing-parent error) if and
only if a parent-window entry exists and the data pointer of the last one is not
`NULL`; when the last parent-window entry has a `NULL` data pointer,
`instantiate` returns `NULL`, whatever the earlier entries are. -/
theorem instantiate_parent_is_last (env : Backend) (write_function controller : Ptr)
    (features : Option (List LV2_Feature)) (hc : env.calloc = true) :
    (scanFeatures features).1 = lastData LV2_UI__parent (features.getD []) ∧
    (scanFeatures features).2 = lastData LV2_UI__resize (features.getD []) ∧
    (Call.glfwSetErrorCallback ∈
        (instantiate env write_function controller features).calls ↔
      ∃ p, lastEntry LV2_UI__parent (features.getD []) = some p ∧ p.data ≠ 0) ∧
    (Call.fprintf "error: glamp_ui: No parent window provided\n" ∈
        (instantiate env write_function controller features).calls ↔
      ¬ ∃ p, lastEntry LV2_UI__parent (features.getD []) = some p ∧ p.data ≠ 0) ∧
    (∀ p, lastEntry LV2_UI__parent (features.getD []) = some p → p.data = 0 →
      (instantiate env write_function controller features).handle = none) := by
  refine ⟨scanFeatures_fst features, scanFeatures_snd features, ?_, ?_, ?_⟩
  · rw [← scanFeatures_fst_ne_zero_iff]
    unfold instantiate
    by_cases hp : (scanFeatures features).1 = 0
    · simp [hc, hp]
    · by_cases hi : env.glfwInit = false
      · simp [hc, hp, hi]
      · by_cases hw : env.glfwCreateWindow = 0
        · simp [hc, hp, hi, hw]
        · simp [hc, hp, hi, hw]
  · rw [← scanFeatures_fst_ne_zero_iff]
    unfold instantiate
    by_cases hp : (scanFeatures features).1 = 0
    · simp [hc, hp]
    · by_cases hi : env.glfwInit = false
      · simp [hc, hp, hi]
      · by_cases hw : env.glfwCreateWindow = 0
        · simp [hc, hp, hi, hw]
        · simp [hc, hp, hi, hw, onReshape]
  · intro p hp hp0
    have h0 : (scanFeatures features).1 = 0 := by
      rw [scanFeatures_fst, lastData, hp]
      simpa using hp0
    unfold instantiate
    simp [hc, h0]

/-- C10 at a list whose first parent-window entry has a handle and whose last
one has none: `instantiate` returns `NULL`. -/
theorem instantiate_parent_is_last_witness :
    (Backend.mk true true 5 6).calloc = true ∧
    lastEntry LV2_UI__parent
      ((some [LV2_Feature.mk LV2_UI__parent 3, LV2_Feature.mk LV2_UI__parent 0]).getD [])
      = some (LV2_Feature.mk LV2_UI__parent 0) ∧
    (instantiate (Backend.mk true true 5 6) 1 2
      (some [LV2_Feature.mk LV2_UI__parent 3, LV2_Feature.mk LV2_UI__parent 0])).handle
      = none :=
  ⟨rfl, by decide,
   (instantiate_parent_is_last (Backend.mk true true 5 6) 1 2
      (some [LV2_Feature.mk LV2_UI__parent 3, LV2_Feature.mk LV2_UI__parent 0])
      rfl).2.2.2.2 (LV2_Feature.mk LV2_UI__parent 0) (by decide) rfl⟩

/-! ## Creation: the successful path -/

/-- C4: when the parent-window entry of the feature list (the last one, should
there be several) carries a non-`NULL` handle and allocation, `glfwInit` and
`glfwCreateWindow` succeed, `instantiate` returns a handle whose window is the
one created and whose stored size is 256×32, and it calls `glfwCreateWindow`
exactly once, with 640×480, whether or not a resize capability is supplied.
The host's `ui_resize` is called exactly once, with 256×32, when a resize
capability is supplied, and not at all otherwise. -/
theorem instantiate_success (env : Backend) (write_function controller : Ptr)
    (features : Option (List LV2_Feature)) (p : LV2_Feature)
    (hc : env.calloc = true) (hi : env.glfwInit = true)
    (hw : env.glfwCreateWindow ≠ 0)
    (hp : lastEntry LV2_UI__parent (features.getD []) = some p)
    (hp0 : p.data ≠ 0) :
    (∃ self, (instantiate env write_function controller features).handle = some self ∧
      self.view = env.glfwCreateWindow ∧ self.view ≠ 0 ∧
      self.width = 256 ∧ self.height = 32) ∧
    (instantiate env write_function controller features).widget
      = some env.glfwGetWindowNativeHandle ∧
    (instantiate env write_function controller features).calls.filter isCreateWindow
      = [Call.glfwCreateWindow 640 480 "Glamp"] ∧
    (instantiate env write_function controller features).calls.filter isUiResize
      = (if lastData LV2_UI__resize (features.getD []) = 0 then []
         else [Call.ui_resize (lastData LV2_UI__resize (features.getD [])) 256 32]) := by
  have hpar : (scanFeatures features).1 ≠ 0 :=
    (scanFeatures_fst_ne_zero_iff features).2 ⟨p, hp, hp0⟩
  rw [← scanFeatures_snd]
  unfold instantiate
  by_cases hr : (scanFeatures features).2 = 0
  · simp [hc, hi, hw, hpar, hr, onReshape, isCreateWindow, isUiResize, List.filter]
  · simp [hc, hi, hw, hpar, hr, onReshape, isCreateWindow, isUiResize, List.filter]

/-- C4 at a list with a parent window and a resize capability. -/
theorem instantiate_success_witness :
    (Backend.mk true true 5 6).calloc = true ∧
    (Backend.mk true true 5 6).glfwInit = true ∧
    (Backend.mk true true 5 6).glfwCreateWindow ≠ 0 ∧
    lastEntry LV2_UI__parent
      ((some [LV2_Feature.mk LV2_UI__parent 3, LV2_Feature.mk LV2_UI__resize 4]).getD [])
      = some (LV2_Feature.mk LV2_UI__parent 3) ∧
    (LV2_Feature.mk LV2_UI__parent 3).data ≠ 0 ∧
    (instantiate (Backend.mk true true 5 6) 1 2
      (some [LV2_Feature.mk LV2_UI__parent 3,
             LV2_Feature.mk LV2_UI__resize 4])).calls.filter isUiResize
      = [Call.ui_resize 4 256 32] :=
  ⟨rfl, rfl, by decide, by decide, by decide,
   (instantiate_success (Backend.mk true true 5 6) 1 2
      (some [LV2_Feature.mk LV2_UI__parent 3, LV2_Feature.mk LV2_UI__resize 4])
      (LV2_Feature.mk LV2_UI__parent 3) rfl rfl (by decide) (by decide)
      (by decide)).2.2.2⟩

/-! ## The state after the callbacks and `idle` -/

theorem dispatch_fst (self : GlampUI) (e : Event) : (dispatch self e).1 = self := by
  cases e <;> rfl

theorem glfwPollEvents_fst (self : GlampUI) (pending : List Event) :
    (glfwPollEvents self pending).1 = self := by
  induction pending generalizing self with
  | nil => rfl
  | cons e es ih =>
    show (glfwPollEvents (dispatch self e).1 es).1 = self
    rw [ih, dispatch_fst]

theorem idle_fst (self : GlampUI) (pending : List Event) :
    (idle self pending).1 =
      { self with brightness := idle_brightness self.brightness } := by
  show (glfwPollEvents _ pending).1 = _
  rw [glfwPollEvents_fst]
  rfl

theorem instantiate_handle (env : Backend) (write_function controller : Ptr)
    (features : Option (List LV2_Feature)) (self : GlampUI)
    (h : (instantiate env write_function controller features).handle = some self) :
    self = { view := env.glfwCreateWindow, write := write_function,
             controller := controller, width := 256, height := 32,
             brightness := 0, exit := false } := by
  unfold instantiate at h
  by_cases hc : env.calloc = false
  · simp [hc] at h
  · by_cases hp : (scanFeatures features).1 = 0
    · simp [hc, hp] at h
    · by_cases hi : env.glfwInit = false
      · simp [hc, hp, hi] at h
      · by_cases hw : env.glfwCreateWindow = 0
        · simp [hc, hp, hi, hw] at h
        · simp [hc, hp, hi, hw, onReshape] at h
          exact h.symm

theorem step_frame (self : GlampUI) (op : Op) :
    (step self op).view = self.view ∧ (step self op).width = self.width ∧
    (step self op).height = self.height := by
  cases op with
  | idle pending => simp [step, idle_fst]
  | port_event a b c d => simp [step, port_event]
  | onReshape w h => simp [step, onReshape]

theorem run_frame (self : GlampUI) (ops : List Op) :
    (run self ops).view = self.view ∧ (run self ops).width = self.width ∧
    (run self ops).height = self.height := by
  induction ops generalizing self with
  | nil => simp [run]
  | cons op ops ih =>
    obtain ⟨h1, h2, h3⟩ := step_frame self op
    obtain ⟨i1, i2, i3⟩ := ih (step self op)
    exact ⟨i1.trans h1, i2.trans h2, i3.trans h3⟩

theorem sample_handle :
    (instantiate sampleBackend 1 2 sampleFeatures).handle = some sampleUI := by
  decide

/-! ## Rounding -/

theorem fmod_one_of_nonneg (x : ℚ) (hx : 0 ≤ x) : fmod x 1 = Int.fract x := by
  unfold fmod trunc
  rw [div_one, if_pos hx, mul_one]
  rfl

theorem roundEven_le (q : ℚ) : (roundEven q : ℚ) ≤ q + 1 / 2 := by
  unfold roundEven
  have h1 := Int.floor_le q
  have h2 := Int.lt_floor_add_one q
  split_ifs with a b c
  · linarith
  · push_cast; linarith
  · linarith
  · push_cast; linarith

theorem le_roundEven (q : ℚ) : q - 1 / 2 ≤ (roundEven q : ℚ) := by
  unfold roundEven
  have h1 := Int.floor_le q
  have h2 := Int.lt_floor_add_one q
  split_ifs with a b c
  · linarith
  · push_cast; linarith
  · linarith
  · push_cast; linarith

theorem floor_le_roundEven (q : ℚ) : ⌊q⌋ ≤ roundEven q := by
  unfold roundEven
  split_ifs <;> omega

theorem roundEven_intCast (n : ℤ) : roundEven (n : ℚ) = n := by
  unfold roundEven
  simp

theorem roundEven_le_of_le (q : ℚ) (n : ℤ) (h : q ≤ n) : roundEven q ≤ n := by
  rcases eq_or_lt_of_le h with h | h
  · rw [h, roundEven_intCast]
  · have hf : ⌊q⌋ < n := by
      have := Int.floor_le q
      exact_mod_cast lt_of_le_of_lt this h
    unfold roundEven
    have h2 : ⌊q⌋ ≤ n - 1 := by omega
    by_cases hi : q - ⌊q⌋ < 1 / 2
    · simp only [hi, if_true]; omega
    · have : ⌊q⌋ + 1 ≤ n := by omega
      simp only [hi, if_false]
      split_ifs <;> omega

theorem log_two_eq (x : ℚ) (e : ℤ) (h0 : 0 < x) (h1 : (2 : ℚ) ^ e ≤ x)
    (h2 : x < (2 : ℚ) ^ (e + 1)) : Int.log 2 x = e := by
  have a : e ≤ Int.log 2 x := by
    rw [← Int.zpow_le_iff_le_log (by norm_num) h0]
    exact_mod_cast h1
  have b : Int.log 2 x < e + 1 := by
    rw [← Int.lt_zpow_iff_log_lt (by norm_num) h0]
    exact_mod_cast h2
  omega


theorem roundBinary_le (p : ℕ) (emin : ℤ) (x : ℚ) (k : ℤ) (h : ulpExp p emin x ≤ k) :
    roundBinary p emin x ≤ x + 2 ^ k / 2 := by
  unfold roundBinary
  have hu : (0 : ℚ) < 2 ^ ulpExp p emin x := by positivity
  have hk : (2 : ℚ) ^ ulpExp p emin x ≤ 2 ^ k := zpow_le_zpow_right₀ (by norm_num) h
  have hr := roundEven_le (x / 2 ^ ulpExp p emin x)
  calc (roundEven (x / 2 ^ ulpExp p emin x) : ℚ) * 2 ^ ulpExp p emin x
      ≤ (x / 2 ^ ulpExp p emin x + 1 / 2) * 2 ^ ulpExp p emin x :=
        mul_le_mul_of_nonneg_right hr hu.le
    _ = x + 2 ^ ulpExp p emin x / 2 := by field_simp; ring
    _ ≤ x + 2 ^ k / 2 := by linarith

theorem le_roundBinary (p : ℕ) (emin : ℤ) (x : ℚ) (k : ℤ) (h : ulpExp p emin x ≤ k) :
    x - 2 ^ k / 2 ≤ roundBinary p emin x := by
  unfold roundBinary
  have hu : (0 : ℚ) < 2 ^ ulpExp p emin x := by positivity
  have hk : (2 : ℚ) ^ ulpExp p emin x ≤ 2 ^ k := zpow_le_zpow_right₀ (by norm_num) h
  have hr := le_roundEven (x / 2 ^ ulpExp p emin x)
  calc x - 2 ^ k / 2 ≤ x - 2 ^ ulpExp p emin x / 2 := by linarith
    _ = (x / 2 ^ ulpExp p emin x - 1 / 2) * 2 ^ ulpExp p emin x := by field_simp; ring
    _ ≤ (roundEven (x / 2 ^ ulpExp p emin x) : ℚ) * 2 ^ ulpExp p emin x :=
        mul_le_mul_of_nonneg_right hr hu.le

theorem roundEven_nonneg (q : ℚ) (h : 0 ≤ q) : 0 ≤ roundEven q :=
  le_trans (Int.floor_nonneg.2 h) (floor_le_roundEven q)

theorem roundBinary_nonneg (p : ℕ) (emin : ℤ) (x : ℚ) (h : 0 ≤ x) :
    0 ≤ roundBinary p emin x := by
  unfold roundBinary
  have hq : 0 ≤ x / 2 ^ ulpExp p emin x := by positivity
  have := roundEven_nonneg _ hq
  have h2 : (0 : ℚ) ≤ (roundEven (x / 2 ^ ulpExp p emin x) : ℚ) := by exact_mod_cast this
  positivity

theorem ulpExp_of_mem (p : ℕ) (emin : ℤ) (x : ℚ) (e : ℤ) (h0 : 0 < x)
    (h1 : (2 : ℚ) ^ e ≤ x) (h2 : x < (2 : ℚ) ^ (e + 1)) :
    ulpExp p emin x = max e emin - ((p : ℤ) - 1) := by
  unfold ulpExp
  rw [abs_of_pos h0, log_two_eq x e h0 h1 h2]

theorem ulpExp_le_of_lt_one (p : ℕ) (emin : ℤ) (x : ℚ) (he : emin ≤ 0) (h0 : 0 ≤ x)
    (h1 : x < 1) : ulpExp p emin x ≤ 1 - (p : ℤ) := by
  unfold ulpExp
  rw [abs_of_nonneg h0]
  have hl : Int.log 2 x ≤ 0 := by
    rcases eq_or_lt_of_le h0 with h | h
    · rw [← h, Int.log_zero_right]
    · have : Int.log 2 x < 0 := by
        rw [← Int.lt_zpow_iff_log_lt (by norm_num) h]
        simpa using h1
      omega
  have : max (Int.log 2 x) emin ≤ 0 := max_le hl he
  omega

/-- A nonnegative value below `1 - 2⁻²⁵` is rounded to a binary32 value below 1. -/
theorem binary32_lt_one (y : ℚ) (h0 : 0 ≤ y) (h1 : y < 1 - 1 / 2 ^ 25) :
    0 ≤ binary32 y ∧ binary32 y < 1 := by
  refine ⟨roundBinary_nonneg 24 (-126) y h0, ?_⟩
  unfold binary32
  by_cases h : y < 1 / 2
  · have hu := ulpExp_le_of_lt_one 24 (-126) y (by norm_num) h0 (by linarith)
    have := roundBinary_le 24 (-126) y (-23) (by simpa using hu)
    have e : (2 : ℚ) ^ (-23 : ℤ) / 2 = 1 / 2 ^ 24 := by norm_num [zpow_neg]
    rw [e] at this
    have : (1 : ℚ) / 2 ^ 24 < 1 / 2 := by norm_num
    linarith
  · have hy : (1 : ℚ) / 2 ≤ y := not_lt.1 h
    have hu := ulpExp_of_mem 24 (-126) y (-1) (by linarith) (by norm_num; linarith)
      (by norm_num; linarith)
    have := roundBinary_le 24 (-126) y (-24) (by rw [hu]; norm_num)
    have e : (2 : ℚ) ^ (-24 : ℤ) / 2 = 1 / 2 ^ 25 := by norm_num [zpow_neg]
    rw [e] at this
    linarith

theorem binary64_centi_bounds :
    1 / 100 - 1 / 2 ^ 53 ≤ binary64 (1 / 100) ∧ binary64 (1 / 100) ≤ 1 / 100 + 1 / 2 ^ 53 := by
  have hu := ulpExp_le_of_lt_one 53 (-1022) (1 / 100) (by norm_num) (by norm_num)
    (by norm_num)
  have e : (2 : ℚ) ^ (-52 : ℤ) / 2 = 1 / 2 ^ 53 := by norm_num [zpow_neg]
  have l := le_roundBinary 53 (-1022) (1 / 100) (-52) (by simpa using hu)
  have u := roundBinary_le 53 (-1022) (1 / 100) (-52) (by simpa using hu)
  rw [e] at l u
  exact ⟨l, u⟩

theorem binary32_scaled (b : ℚ) (hb : binary32 b = b) (h0 : 1 / 2 ≤ b) (h1 : b < 1) :
    b = (roundEven (b / 2 ^ (-24 : ℤ)) : ℚ) * 2 ^ (-24 : ℤ) := by
  have hu := ulpExp_of_mem 24 (-126) b (-1) (by linarith) (by norm_num; linarith)
    (by norm_num; linarith)
  have hu2 : ulpExp 24 (-126) b = -24 := by rw [hu]; norm_num
  have := hb
  unfold binary32 roundBinary at this
  rw [hu2] at this
  exact this.symm

theorem roundBinary_zero (p : ℕ) (emin : ℤ) : roundBinary p emin 0 = 0 := by
  unfold roundBinary
  simp [roundEven]

theorem roundBinary_of_int (p : ℕ) (emin : ℤ) (r : ℚ) (m : ℤ)
    (h : r = (m : ℚ) * 2 ^ ulpExp p emin r) : roundBinary p emin r = r := by
  unfold roundBinary
  have hq : r / 2 ^ ulpExp p emin r = (m : ℚ) := by
    rw [div_eq_iff (by positivity)]
    exact h
  rw [hq, roundEven_intCast]
  exact h.symm

theorem two_zpow_split (P : ℕ) (a b : ℤ) (h : (P : ℤ) + a = b) :
    (((2 : ℤ) ^ P : ℤ) : ℚ) * 2 ^ a = 2 ^ b := by
  push_cast
  rw [← zpow_natCast, ← zpow_add₀ (by norm_num), h]

theorem log_two_le (r : ℚ) (e : ℤ) (h0 : 0 < r) (h : r ≤ 2 ^ e) : Int.log 2 r ≤ e := by
  have h1 := Int.log_mono_right (b := 2) h0 h
  have h2 := Int.log_zpow (R := ℚ) (b := 2) (by norm_num) e
  rw [Nat.cast_ofNat] at h2
  rw [h2] at h1
  exact h1

/-- Rounding a nonnegative value twice is rounding it once. -/
theorem roundBinary_idem (P : ℕ) (emin : ℤ) (x : ℚ) (hx : 0 ≤ x) :
    roundBinary (P + 1) emin (roundBinary (P + 1) emin x) = roundBinary (P + 1) emin x := by
  rcases eq_or_lt_of_le hx with h | h
  · rw [← h, roundBinary_zero, roundBinary_zero]
  have hL1 : (2 : ℚ) ^ Int.log 2 x ≤ x := by
    simpa using Int.zpow_log_le_self (b := 2) (by norm_num) h
  have hL2 : x < (2 : ℚ) ^ (Int.log 2 x + 1) := by
    simpa using Int.lt_zpow_succ_log_self (b := 2) (by norm_num) x
  have hu : ulpExp (P + 1) emin x = max (Int.log 2 x) emin - P := by
    unfold ulpExp
    rw [abs_of_pos h]
    push_cast
    ring
  have hr : roundBinary (P + 1) emin x
      = (roundEven (x / 2 ^ (max (Int.log 2 x) emin - (P : ℤ))) : ℚ)
          * 2 ^ (max (Int.log 2 x) emin - (P : ℤ)) := by
    unfold roundBinary
    rw [hu]
  rw [hr]
  generalize Int.log 2 x = L at hL1 hL2
  generalize hn : roundEven (x / 2 ^ (max L emin - (P : ℤ))) = n
  have hn0 : 0 ≤ n := by
    rw [← hn]
    exact roundEven_nonneg _ (by positivity)
  by_cases hcase : emin ≤ L
  · rw [max_eq_left hcase] at hn ⊢
    have h2u : (0 : ℚ) < 2 ^ (L - (P : ℤ)) := by positivity
    have hq1 : (((2 : ℤ) ^ P : ℤ) : ℚ) ≤ x / 2 ^ (L - (P : ℤ)) := by
      rw [le_div_iff₀ h2u, two_zpow_split P (L - P) L (by ring)]
      exact hL1
    have hq2 : x / 2 ^ (L - (P : ℤ)) ≤ (((2 : ℤ) ^ (P + 1) : ℤ) : ℚ) := by
      rw [div_le_iff₀ h2u, two_zpow_split (P + 1) (L - P) (L + 1) (by push_cast; ring)]
      exact hL2.le
    have hn1 : (2 : ℤ) ^ P ≤ n := by
      rw [← hn]
      exact le_trans (Int.le_floor.2 hq1) (floor_le_roundEven _)
    have hn2 : n ≤ (2 : ℤ) ^ (P + 1) := by
      rw [← hn]
      exact roundEven_le_of_le _ _ hq2
    have hP : (0 : ℤ) < 2 ^ P := by positivity
    have hnpos : (0 : ℚ) < (n : ℚ) := by exact_mod_cast lt_of_lt_of_le hP hn1
    rcases eq_or_lt_of_le hn2 with he | hlt
    · have hr2 : (n : ℚ) * 2 ^ (L - (P : ℤ)) = 2 ^ (L + 1) := by
        rw [he]
        exact two_zpow_split (P + 1) (L - P) (L + 1) (by push_cast; ring)
      rw [hr2]
      apply roundBinary_of_int (P + 1) emin _ ((2 : ℤ) ^ P)
      have hue : ulpExp (P + 1) emin ((2 : ℚ) ^ (L + 1)) = L + 1 - P := by
        rw [ulpExp_of_mem (P + 1) emin _ (L + 1) (by positivity) le_rfl
          (zpow_lt_zpow_right₀ (by norm_num) (by omega)), max_eq_left (by omega)]
        push_cast
        ring
      rw [hue]
      exact (two_zpow_split P (L + 1 - P) (L + 1) (by ring)).symm
    · apply roundBinary_of_int (P + 1) emin _ n
      have hue : ulpExp (P + 1) emin ((n : ℚ) * 2 ^ (L - (P : ℤ))) = L - P := by
        rw [ulpExp_of_mem (P + 1) emin _ L (by positivity) ?_ ?_, max_eq_left hcase]
        · push_cast
          ring
        · rw [← two_zpow_split P (L - P) L (by ring)]
          exact mul_le_mul_of_nonneg_right (by exact_mod_cast hn1) h2u.le
        · rw [← two_zpow_split (P + 1) (L - P) (L + 1) (by push_cast; ring)]
          exact mul_lt_mul_of_pos_right (by exact_mod_cast hlt) h2u
      rw [hue]
  · have hlt : L < emin := not_le.1 hcase
    rw [max_eq_right hlt.le] at hn ⊢
    have h2u : (0 : ℚ) < 2 ^ (emin - (P : ℤ)) := by positivity
    have hq2 : x / 2 ^ (emin - (P : ℤ)) ≤ (((2 : ℤ) ^ P : ℤ) : ℚ) := by
      rw [div_le_iff₀ h2u, two_zpow_split P (emin - P) emin (by ring)]
      exact le_trans hL2.le (zpow_le_zpow_right₀ (by norm_num) (by omega))
    have hn2 : n ≤ (2 : ℤ) ^ P := by
      rw [← hn]
      exact roundEven_le_of_le _ _ hq2
    rcases eq_or_lt_of_le hn0 with he | hpos
    · rw [← he]
      simp [roundBinary_zero]
    · apply roundBinary_of_int (P + 1) emin _ n
      have hnpos : (0 : ℚ) < (n : ℚ) := by exact_mod_cast hpos
      have hle : (n : ℚ) * 2 ^ (emin - (P : ℤ)) ≤ 2 ^ emin := by
        rw [← two_zpow_split P (emin - P) emin (by ring)]
        exact mul_le_mul_of_nonneg_right (by exact_mod_cast hn2) h2u.le
      have hue : ulpExp (P + 1) emin ((n : ℚ) * 2 ^ (emin - (P : ℤ))) = emin - P := by
        unfold ulpExp
        rw [abs_of_pos (by positivity), max_eq_right (log_two_le _ emin (by positivity) hle)]
        push_cast
        ring
      rw [hue]


/-- A natural number below `2 ^ (P + 1)` is its own rounding to `P + 1`
significand bits. -/
theorem roundBinary_natCast (P : ℕ) (emin : ℤ) (v : ℕ) (he : emin ≤ 0)
    (hv : v < 2 ^ (P + 1)) : roundBinary (P + 1) emin (v : ℚ) = v := by
  rcases Nat.eq_zero_or_pos v with h | h
  · rw [h, Nat.cast_zero, roundBinary_zero]
  have hvq : (0 : ℚ) < (v : ℚ) := by exact_mod_cast h
  have hlog : Int.log 2 (v : ℚ) = (Nat.log 2 v : ℤ) := Int.log_natCast 2 v
  have hL : Nat.log 2 v < P + 1 := Nat.log_lt_of_lt_pow (by omega) hv
  have hu : ulpExp (P + 1) emin (v : ℚ) = (Nat.log 2 v : ℤ) - P := by
    unfold ulpExp
    rw [abs_of_pos hvq, hlog, max_eq_left (by omega)]
    push_cast
    ring
  apply roundBinary_of_int (P + 1) emin _ ((v : ℤ) * 2 ^ (P - Nat.log 2 v))
  rw [hu]
  push_cast
  rw [mul_assoc, ← zpow_natCast, ← zpow_add₀ (by norm_num)]
  have : ((P - Nat.log 2 v : ℕ) : ℤ) + ((Nat.log 2 v : ℤ) - (P : ℤ)) = 0 := by omega
  rw [this, zpow_zero, mul_one]

/-- A natural number below `2 ^ 24` passes unchanged through a `double` into a
`float`. -/
theorem binary32_binary64_natCast (v : ℕ) (hv : v < 2 ^ 24) :
    binary32 (binary64 (v : ℚ)) = v := by
  have h64 : binary64 (v : ℚ) = v :=
    roundBinary_natCast 52 (-1022) v (by norm_num)
      (lt_trans hv (by norm_num))
  rw [h64]
  exact roundBinary_natCast 23 (-126) v (by norm_num) hv


theorem ulpExp_le_of_lt_two (p : ℕ) (emin : ℤ) (x : ℚ) (he : emin ≤ 0) (h0 : 0 ≤ x)
    (h2 : x < 2) : ulpExp p emin x ≤ 1 - (p : ℤ) := by
  unfold ulpExp
  rw [abs_of_nonneg h0]
  have hl : Int.log 2 x ≤ 0 := by
    rcases eq_or_lt_of_le h0 with h | h
    · rw [← h, Int.log_zero_right]
    · have : Int.log 2 x < 1 := by
        rw [← Int.lt_zpow_iff_log_lt (by norm_num) h]
        simpa using h2
      omega
  have : max (Int.log 2 x) emin ≤ 0 := max_le hl he
  omega

theorem ulpExp_le_of_pos_lt_one (p : ℕ) (emin : ℤ) (x : ℚ) (he : emin ≤ -1) (h0 : 0 < x)
    (h1 : x < 1) : ulpExp p emin x ≤ -(p : ℤ) := by
  unfold ulpExp
  rw [abs_of_pos h0]
  have hl : Int.log 2 x < 0 := by
    rw [← Int.lt_zpow_iff_log_lt (by norm_num) h0]
    simpa using h1
  have : max (Int.log 2 x) emin ≤ -1 := max_le (by omega) he
  omega

theorem roundEven_eq_of_abs_lt (q : ℚ) (n : ℤ) (h : |q - n| < 1 / 2) : roundEven q = n := by
  have h1 := roundEven_le q
  have h2 := le_roundEven q
  obtain ⟨h3, h4⟩ := abs_lt.1 h
  have a : ((roundEven q : ℤ) : ℚ) < ((n + 1 : ℤ) : ℚ) := by push_cast; linarith
  have b : ((n - 1 : ℤ) : ℚ) < ((roundEven q : ℤ) : ℚ) := by push_cast; linarith
  have a2 : roundEven q < n + 1 := by exact_mod_cast a
  have b2 : n - 1 < roundEven q := by exact_mod_cast b
  omega

/-- Rounding a value in [0,1) to a `float` moves it by at most 2⁻²⁵. -/
theorem abs_binary32_sub_le (y : ℚ) (h0 : 0 ≤ y) (h1 : y < 1) :
    |binary32 y - y| ≤ 1 / 2 ^ 25 := by
  rcases eq_or_lt_of_le h0 with h | h
  · rw [← h]
    unfold binary32
    rw [roundBinary_zero]
    norm_num
  · have hu := ulpExp_le_of_pos_lt_one 24 (-126) y (by norm_num) h h1
    have e : (2 : ℚ) ^ (-24 : ℤ) / 2 = 1 / 2 ^ 25 := by norm_num [zpow_neg]
    have l : y - 2 ^ (-24 : ℤ) / 2 ≤ binary32 y :=
      le_roundBinary 24 (-126) y (-24) (by simpa using hu)
    have u : binary32 y ≤ y + 2 ^ (-24 : ℤ) / 2 :=
      roundBinary_le 24 (-126) y (-24) (by simpa using hu)
    rw [e] at l u
    rw [abs_le]
    constructor <;> linarith

/-- Rounding a value in [0,2) to a `double` moves it by at most 2⁻⁵³. -/
theorem abs_binary64_sub_le (x : ℚ) (h0 : 0 ≤ x) (h2 : x < 2) :
    |binary64 x - x| ≤ 1 / 2 ^ 53 := by
  have hu := ulpExp_le_of_lt_two 53 (-1022) x (by norm_num) h0 h2
  have e : (2 : ℚ) ^ (-52 : ℤ) / 2 = 1 / 2 ^ 53 := by norm_num [zpow_neg]
  have l : x - 2 ^ (-52 : ℤ) / 2 ≤ binary64 x :=
    le_roundBinary 53 (-1022) x (-52) (by simpa using hu)
  have u : binary64 x ≤ x + 2 ^ (-52 : ℤ) / 2 :=
    roundBinary_le 53 (-1022) x (-52) (by simpa using hu)
  rw [e] at l u
  rw [abs_le]
  constructor <;> linarith

/-- A `double` rounded from a value of at least 1 and below 2 is at least 1. -/
theorem one_le_binary64 (x : ℚ) (h1 : 1 ≤ x) (h2 : x < 2) : 1 ≤ binary64 x := by
  have hu := ulpExp_of_mem 53 (-1022) x 0 (by linarith) (by simpa using h1)
    (by simpa using h2)
  have hu2 : ulpExp 53 (-1022) x = -52 := by rw [hu]; norm_num
  show 1 ≤ (roundEven (x / 2 ^ ulpExp 53 (-1022) x) : ℚ) * 2 ^ ulpExp 53 (-1022) x
  rw [hu2]
  have hq : ((2 ^ 52 : ℤ) : ℚ) ≤ x / 2 ^ (-52 : ℤ) := by
    rw [le_div_iff₀ (by positivity)]
    have : (((2 ^ 52 : ℤ) : ℚ)) * 2 ^ (-52 : ℤ) = 1 := by norm_num [zpow_neg]
    rw [this]
    exact h1
  have hf : (2 ^ 52 : ℤ) ≤ roundEven (x / 2 ^ (-52 : ℤ)) :=
    le_trans (Int.le_floor.2 hq) (floor_le_roundEven _)
  have hf2 : ((2 ^ 52 : ℤ) : ℚ) ≤ (roundEven (x / 2 ^ (-52 : ℤ)) : ℚ) := by
    exact_mod_cast hf
  calc (1 : ℚ) = ((2 ^ 52 : ℤ) : ℚ) * 2 ^ (-52 : ℤ) := by norm_num [zpow_neg]
    _ ≤ _ := mul_le_mul_of_nonneg_right hf2 (by positivity)

/-- A `float` in [0,1) is at most 16609443 × 2⁻²⁴ when it is below 0.99, and at
least 16609444 × 2⁻²⁴ otherwise. -/
theorem binary32_grid (b : ℚ) (hb : binary32 b = b) (h1 : b < 1) :
    (b + 1 / 100 < 1 → b ≤ 16609443 / 2 ^ 24) ∧
    (1 ≤ b + 1 / 100 → 16609444 / 2 ^ 24 ≤ b) := by
  by_cases hh : b < 1 / 2
  · constructor
    · intro _
      have : (1 : ℚ) / 2 ≤ 16609443 / 2 ^ 24 := by norm_num
      linarith
    · intro h
      linarith
  · have hbn := binary32_scaled b hb (not_lt.1 hh) h1
    have e24 : (2 : ℚ) ^ (-24 : ℤ) = 1 / 2 ^ 24 := by norm_num [zpow_neg]
    rw [e24] at hbn
    have hpos : (0 : ℚ) < 1 / 2 ^ 24 := by positivity
    rcases le_or_lt (roundEven (b / (1 / 2 ^ 24))) 16609443 with hn | hn
    · have h5 : (roundEven (b / (1 / 2 ^ 24)) : ℚ) ≤ 16609443 := by exact_mod_cast hn
      have h6 : b ≤ 16609443 * (1 / 2 ^ 24) := by
        rw [hbn]
        exact mul_le_mul_of_nonneg_right h5 hpos.le
      constructor
      · intro _
        linarith
      · intro h
        have : (16609443 : ℚ) * (1 / 2 ^ 24) + 1 / 100 < 1 := by norm_num
        linarith
    · have h4 : (16609444 : ℤ) ≤ roundEven (b / (1 / 2 ^ 24)) := by omega
      have h5 : (16609444 : ℚ) ≤ (roundEven (b / (1 / 2 ^ 24)) : ℚ) := by exact_mod_cast h4
      have h6 : 16609444 * (1 / 2 ^ 24) ≤ b := by
        rw [hbn]
        exact mul_le_mul_of_nonneg_right h5 hpos.le
      constructor
      · intro h
        have : (1 : ℚ) < 16609444 * (1 / 2 ^ 24) + 1 / 100 := by norm_num
        linarith
      · intro _
        linarith

/-- For a `float` `b` in [0,1) and `c` within 2⁻⁵³ of 0.01, the value
`fmod(b + c, 1.0)` computed in `double` is at least 0, below `1 - 2⁻²⁵`, and
within 2⁻⁵² of `b + 0.01`, less 1 when `b + 0.01` reaches 1. -/
theorem fmod_binary64_add (b c : ℚ) (hb : binary32 b = b) (h0 : 0 ≤ b) (h1 : b < 1)
    (hc0 : 1 / 100 - 1 / 2 ^ 53 ≤ c) (hc1 : c ≤ 1 / 100 + 1 / 2 ^ 53) :
    0 ≤ fmod (binary64 (b + c)) 1 ∧ fmod (binary64 (b + c)) 1 < 1 - 1 / 2 ^ 25 ∧
    |fmod (binary64 (b + c)) 1
      - (if b + 1 / 100 < 1 then b + 1 / 100 else b + 1 / 100 - 1)| ≤ 1 / 2 ^ 52 := by
  have hx0 : 0 ≤ b + c := by
    have : (0 : ℚ) ≤ 1 / 100 - 1 / 2 ^ 53 := by norm_num
    linarith
  have hx2 : b + c < 2 := by
    have : (1 : ℚ) + (1 / 100 + 1 / 2 ^ 53) < 2 := by norm_num
    linarith
  have hz0 : 0 ≤ binary64 (b + c) := roundBinary_nonneg 53 (-1022) _ hx0
  obtain ⟨hzl, hzu⟩ := abs_le.1 (abs_binary64_sub_le (b + c) hx0 hx2)
  obtain ⟨hg1, hg2⟩ := binary32_grid b hb h1
  have e52 : (1 : ℚ) / 2 ^ 53 + 1 / 2 ^ 53 = 1 / 2 ^ 52 := by norm_num
  rw [fmod_one_of_nonneg _ hz0]
  refine ⟨Int.fract_nonneg _, ?_⟩
  by_cases hx : b + 1 / 100 < 1
  · have hb2 := hg1 hx
    have key : (16609443 : ℚ) / 2 ^ 24 + (1 / 100 + 1 / 2 ^ 53) + 1 / 2 ^ 53
        < 1 - 1 / 2 ^ 25 := by norm_num
    have hz1 : binary64 (b + c) < 1 - 1 / 2 ^ 25 := by linarith
    have hz2 : binary64 (b + c) < 1 := by
      have : (1 : ℚ) - 1 / 2 ^ 25 < 1 := by norm_num
      linarith
    rw [Int.fract_eq_self.2 ⟨hz0, hz2⟩, if_pos hx]
    refine ⟨hz1, ?_⟩
    rw [abs_le]
    constructor <;> linarith
  · have hx1 : 1 ≤ b + 1 / 100 := not_lt.1 hx
    have hb2 := hg2 hx1
    have key : (1 : ℚ) ≤ 16609444 / 2 ^ 24 + (1 / 100 - 1 / 2 ^ 53) := by norm_num
    have hz1 : 1 ≤ binary64 (b + c) := one_le_binary64 (b + c) (by linarith) hx2
    have hfl : ⌊binary64 (b + c)⌋ = 1 := by
      rw [Int.floor_eq_iff]
      constructor
      · simpa using hz1
      · have : (1 : ℚ) + (1 / 100 + 1 / 2 ^ 53) + 1 / 2 ^ 53 < 2 := by norm_num
        push_cast
        linarith
    rw [Int.fract, hfl, if_neg hx]
    push_cast
    constructor
    · have : (1 : ℚ) + (1 / 100 + 1 / 2 ^ 53) + 1 / 2 ^ 53 - 1 < 1 - 1 / 2 ^ 25 := by norm_num
      linarith
    · rw [abs_le]
      constructor <;> linarith

/-- The update of `idle` maps a `float` in [0,1) to a `float` in [0,1) that is
within 2⁻²⁴ of `b + 0.01`, less 1 when `b + 0.01` reaches 1. -/
theorem idle_brightness_spec (b : ℚ) (hb : binary32 b = b) (h0 : 0 ≤ b) (h1 : b < 1) :
    binary32 (idle_brightness b) = idle_brightness b ∧
    0 ≤ idle_brightness b ∧ idle_brightness b < 1 ∧
    |idle_brightness b - (if b + 1 / 100 < 1 then b + 1 / 100 else b + 1 / 100 - 1)|
      ≤ 1 / 2 ^ 24 := by
  obtain ⟨hc0, hc1⟩ := binary64_centi_bounds
  obtain ⟨hy0, hy1, hy2⟩ := fmod_binary64_add b (binary64 (1 / 100)) hb h0 h1 hc0 hc1
  obtain ⟨hr0, hr1⟩ := binary32_lt_one _ hy0 hy1
  have hy3 : fmod (binary64 (b + binary64 (1 / 100))) 1 < 1 := by
    have : (1 : ℚ) - 1 / 2 ^ 25 < 1 := by norm_num
    linarith
  have hr2 := abs_binary32_sub_le _ hy0 hy3
  refine ⟨roundBinary_idem 23 (-126) _ hy0, hr0, hr1, ?_⟩
  show |binary32 (fmod (binary64 (b + binary64 (1 / 100))) 1) - _| ≤ _
  have e : (1 : ℚ) / 2 ^ 25 + 1 / 2 ^ 52 ≤ 1 / 2 ^ 24 := by norm_num
  obtain ⟨a1, a2⟩ := abs_le.1 hr2
  obtain ⟨b1, b2⟩ := abs_le.1 hy2
  rw [abs_le]
  constructor <;> linarith

/-- The update of `idle` evaluated from bounds: when `b + 0.01 - w` (`w` being 0,
or 1 for a wrap) lies in the binade of `2 ^ e` and is nearer than half a unit in
the last place to `n × 2 ^ (e - 23)`, each with a margin of 2⁻⁵², the new
brightness is `n × 2 ^ (e - 23)`. -/
theorem idle_brightness_eval (b : ℚ) (w e n : ℤ) (hw0 : 0 ≤ w) (hw1 : w ≤ 1)
    (he1 : -126 ≤ e) (he2 : e ≤ -1)
    (h1 : (2 : ℚ) ^ e + 1 / 2 ^ 52 ≤ b + 1 / 100 - w)
    (h2 : b + 1 / 100 - w + 1 / 2 ^ 52 < (2 : ℚ) ^ (e + 1))
    (h3 : n * (2 : ℚ) ^ (e - 23) - (2 : ℚ) ^ (e - 23) / 2 + 1 / 2 ^ 52 < b + 1 / 100 - w)
    (h4 : b + 1 / 100 - w + 1 / 2 ^ 52 < n * (2 : ℚ) ^ (e - 23) + (2 : ℚ) ^ (e - 23) / 2) :
    idle_brightness b = n * (2 : ℚ) ^ (e - 23) := by
  obtain ⟨hc0, hc1⟩ := binary64_centi_bounds
  have hw0q : (0 : ℚ) ≤ (w : ℚ) := by exact_mod_cast hw0
  have hw1q : (w : ℚ) ≤ 1 := by exact_mod_cast hw1
  have hpe : (0 : ℚ) < 2 ^ e := by positivity
  have hpe1 : (2 : ℚ) ^ (e + 1) ≤ 1 := by
    have := zpow_le_zpow_right₀ (a := (2 : ℚ)) (by norm_num) (show e + 1 ≤ 0 by omega)
    simpa using this
  have hsmall : (0 : ℚ) < 1 / 100 - 1 / 2 ^ 53 := by norm_num
  have e52 : (1 : ℚ) / 2 ^ 53 + 1 / 2 ^ 53 = 1 / 2 ^ 52 := by norm_num
  have hx0 : 0 ≤ b + binary64 (1 / 100) := by linarith
  have hx2 : b + binary64 (1 / 100) < 2 := by linarith
  have hz0 : 0 ≤ binary64 (b + binary64 (1 / 100)) := roundBinary_nonneg 53 (-1022) _ hx0
  obtain ⟨hzl, hzu⟩ := abs_le.1 (abs_binary64_sub_le _ hx0 hx2)
  have hfl : ⌊binary64 (b + binary64 (1 / 100))⌋ = w := by
    rw [Int.floor_eq_iff]
    constructor <;> linarith
  have hy : fmod (binary64 (b + binary64 (1 / 100))) 1
      = binary64 (b + binary64 (1 / 100)) - w := by
    rw [fmod_one_of_nonneg _ hz0, Int.fract, hfl]
  have hyl : b + 1 / 100 - w - 1 / 2 ^ 52 ≤ binary64 (b + binary64 (1 / 100)) - w := by
    linarith
  have hyu : binary64 (b + binary64 (1 / 100)) - w ≤ b + 1 / 100 - w + 1 / 2 ^ 52 := by
    linarith
  unfold idle_brightness
  rw [hy]
  generalize binary64 (b + binary64 (1 / 100)) - (w : ℚ) = y at hyl hyu ⊢
  have hu := ulpExp_of_mem 24 (-126) y e (by linarith) (by linarith) (by linarith)
  have hu2 : ulpExp 24 (-126) y = e - 23 := by
    rw [hu, max_eq_left he1]
    norm_num
  show (roundEven (y / 2 ^ ulpExp 24 (-126) y) : ℚ) * 2 ^ ulpExp 24 (-126) y = _
  rw [hu2]
  have hpu : (0 : ℚ) < 2 ^ (e - 23) := by positivity
  have hq : |y / 2 ^ (e - 23) - n| < 1 / 2 := by
    rw [abs_lt]
    constructor
    · rw [lt_sub_iff_add_lt, lt_div_iff₀ hpu]
      linarith
    · rw [sub_lt_iff_lt_add, div_lt_iff₀ hpu]
      linarith
  rw [roundEven_eq_of_abs_lt _ n hq]


theorem tickCert_sound (E m m' : ℕ) (h : tickCert E m = some m') :
    idle_brightness ((m : ℚ) / 2 ^ 30) = (m' : ℚ) / 2 ^ 30 := by
  unfold tickCert at h
  split_ifs at h with hc
  obtain ⟨c1, c2, c3, c4, c5⟩ := hc
  have hm : m' = (2 * (100 * 2 ^ 22 * m + 2 ^ 52) + 100 * 2 ^ (E + 22))
      / (2 * (100 * 2 ^ (E + 22))) * 2 ^ E := (Option.some.inj h).symm
  generalize (2 * (100 * 2 ^ 22 * m + 2 ^ 52) + 100 * 2 ^ (E + 22))
      / (2 * (100 * 2 ^ (E + 22))) = n at c3 c4 hm
  have q1 : ((100 * 2 ^ (E + 45) + 100 : ℕ) : ℚ) ≤ ((100 * 2 ^ 22 * m + 2 ^ 52 : ℕ) : ℚ) := by
    exact_mod_cast c1
  have q2 : ((100 * 2 ^ 22 * m + 2 ^ 52 + 100 : ℕ) : ℚ) < ((100 * 2 ^ (E + 46) : ℕ) : ℚ) := by
    exact_mod_cast c2
  have q3 : ((2 * n * (100 * 2 ^ (E + 22)) + 200 : ℕ) : ℚ)
      < ((2 * (100 * 2 ^ 22 * m + 2 ^ 52) + 100 * 2 ^ (E + 22) : ℕ) : ℚ) := by
    exact_mod_cast c3
  have q4 : ((2 * (100 * 2 ^ 22 * m + 2 ^ 52) + 200 : ℕ) : ℚ)
      < ((2 * n * (100 * 2 ^ (E + 22)) + 100 * 2 ^ (E + 22) : ℕ) : ℚ) := by
    exact_mod_cast c4
  push_cast at q1 q2 q3 q4
  rw [pow_add] at q1 q2 q3 q4
  have z1 : (2 : ℚ) ^ ((E : ℤ) - 7) = 2 ^ E / 2 ^ 7 := by
    rw [zpow_sub₀ (by norm_num), zpow_natCast]
    norm_num
  have z2 : (2 : ℚ) ^ ((E : ℤ) - 7 + 1) = 2 ^ E / 2 ^ 6 := by
    rw [show (E : ℤ) - 7 + 1 = (E : ℤ) - 6 by ring, zpow_sub₀ (by norm_num), zpow_natCast]
    norm_num
  have z3 : (2 : ℚ) ^ ((E : ℤ) - 7 - 23) = 2 ^ E / 2 ^ 30 := by
    rw [show (E : ℤ) - 7 - 23 = (E : ℤ) - 30 by ring, zpow_sub₀ (by norm_num), zpow_natCast]
    norm_num
  have key := idle_brightness_eval ((m : ℚ) / 2 ^ 30) 0 ((E : ℤ) - 7) (n : ℤ) le_rfl
    (by norm_num) (by omega) (by omega)
  rw [z1, z2, z3] at key
  rw [key ?_ ?_ ?_ ?_, hm]
  · push_cast
    ring
  all_goals
    generalize (2 : ℚ) ^ E = t at *
    push_cast
    generalize (n : ℚ) * t = p at *
    norm_num at q1 q2 q3 q4 ⊢
    linarith

theorem tickNat_sound (m m' : ℕ) (h : tickNat m = some m') :
    idle_brightness ((m : ℚ) / 2 ^ 30) = (m' : ℚ) / 2 ^ 30 := by
  obtain ⟨E, _, hE⟩ := List.exists_of_findSome?_eq_some h
  exact tickCert_sound E m m' hE

theorem ticksNat_sound (k m m' : ℕ) (h : ticksNat k m = some m') :
    idle_brightness^[k] ((m : ℚ) / 2 ^ 30) = (m' : ℚ) / 2 ^ 30 := by
  induction k generalizing m with
  | zero =>
    have : m = m' := Option.some.inj h
    rw [this]
    rfl
  | succ k ih =>
    rw [Function.iterate_succ_apply]
    cases hm : tickNat m with
    | none =>
      rw [ticksNat, hm] at h
      exact absurd h (by simp)
    | some m1 =>
      rw [ticksNat, hm] at h
      rw [tickNat_sound m m1 hm]
      exact ih m1 h

theorem idle_brightness_iterate_1 : idle_brightness^[1] 0 = 5368709 / 2 ^ 29 := by
  have h := ticksNat_sound 1 0 10737418 (by decide)
  rw [Nat.cast_zero, zero_div] at h
  rw [h]
  norm_num

theorem idle_brightness_iterate_50 : idle_brightness^[50] 0 = 8388605 / 2 ^ 24 := by
  have h := ticksNat_sound 50 0 536870720 (by decide)
  rw [Nat.cast_zero, zero_div] at h
  rw [h]
  norm_num

theorem idle_brightness_iterate_100 : idle_brightness^[100] 0 = 16777205 / 2 ^ 24 := by
  have h := ticksNat_sound 100 0 1073741120 (by decide)
  rw [Nat.cast_zero, zero_div] at h
  rw [h]
  norm_num

/-- The brightness after `N` updates from 0 is a `float` in [0,1) that differs
from `0.01 × N - k`, for some natural number `k`, by at most `N × 2⁻²⁴`. -/
theorem idle_brightness_iterate (N : ℕ) :
    binary32 (idle_brightness^[N] 0) = idle_brightness^[N] 0 ∧
    0 ≤ idle_brightness^[N] 0 ∧ idle_brightness^[N] 0 < 1 ∧
    ∃ k : ℕ, |idle_brightness^[N] 0 - (1 / 100 * (N : ℚ) - (k : ℚ))| ≤ (N : ℚ) / 2 ^ 24 := by
  induction N with
  | zero => exact ⟨roundBinary_zero 24 (-126), le_rfl, by norm_num, 0, by norm_num⟩
  | succ N ih =>
    rw [Function.iterate_succ_apply']
    obtain ⟨hb, h0, h1, k, hk⟩ := ih
    obtain ⟨s1, s2, s3, s4⟩ := idle_brightness_spec _ hb h0 h1
    refine ⟨s1, s2, s3, ?_⟩
    obtain ⟨a1, a2⟩ := abs_le.1 hk
    obtain ⟨b1, b2⟩ := abs_le.1 s4
    have e : ((N + 1 : ℕ) : ℚ) / 2 ^ 24 = (N : ℚ) / 2 ^ 24 + 1 / 2 ^ 24 := by
      push_cast
      ring
    split_ifs at b1 b2 with hw
    · refine ⟨k, ?_⟩
      rw [abs_le, e]
      push_cast
      constructor <;> linarith
    · refine ⟨k + 1, ?_⟩
      rw [abs_le, e]
      push_cast
      constructor <;> linarith

/-! ## Brightness -/

theorem idleAll_brightness (self : GlampUI) (pendings : List (List Event)) :
    (idleAll self pendings).brightness
      = idle_brightness^[pendings.length] self.brightness := by
  induction pendings generalizing self with
  | nil => rfl
  | cons p ps ih =>
    show (idleAll (idle self p).1 ps).brightness = _
    rw [ih, idle_fst, List.length_cons, Function.iterate_succ_apply]

theorem step_brightness (self : GlampUI) (op : Op)
    (h : binary32 self.brightness = self.brightness ∧
      0 ≤ self.brightness ∧ self.brightness < 1) :
    binary32 (step self op).brightness = (step self op).brightness ∧
    0 ≤ (step self op).brightness ∧ (step self op).brightness < 1 := by
  cases op with
  | idle pending =>
    show binary32 (idle self pending).1.brightness = (idle self pending).1.brightness ∧
      0 ≤ (idle self pending).1.brightness ∧ (idle self pending).1.brightness < 1
    rw [idle_fst]
    obtain ⟨s1, s2, s3, _⟩ := idle_brightness_spec self.brightness h.1 h.2.1 h.2.2
    exact ⟨s1, s2, s3⟩
  | port_event a b c d => exact h
  | onReshape w h' => exact h

theorem run_brightness (self : GlampUI) (ops : List Op)
    (h : binary32 self.brightness = self.brightness ∧
      0 ≤ self.brightness ∧ self.brightness < 1) :
    binary32 (run self ops).brightness = (run self ops).brightness ∧
    0 ≤ (run self ops).brightness ∧ (run self ops).brightness < 1 := by
  induction ops generalizing self with
  | nil => exact h
  | cons op ops ih => exact ih (step self op) (step_brightness self op h)

/-- The value 0.995 rounded to a `float`. -/
theorem binary32_sample : binary32 (16693330 / 2 ^ 24) = 16693330 / 2 ^ 24 := by
  apply roundBinary_of_int 24 (-126) _ 16693330
  rw [ulpExp_of_mem 24 (-126) _ (-1) (by norm_num) (by norm_num [zpow_neg])
    (by norm_num)]
  norm_num [zpow_neg]

/-- The update of `idle` at the `float` nearest to 0.995: the sum passes 1 and
the brightness wraps to the `float` 2684357 × 2⁻²⁹, about 0.005. -/
theorem idle_brightness_sample :
    idle_brightness (16693330 / 2 ^ 24) = 2684357 / 2 ^ 29 := by
  have := idle_brightness_eval (16693330 / 2 ^ 24) 1 (-8) 10737428 (by norm_num)
    (by norm_num) (by norm_num) (by norm_num) (by norm_num [zpow_neg])
    (by norm_num [zpow_neg]) (by norm_num [zpow_neg]) (by norm_num [zpow_neg])
  rw [this]
  norm_num [zpow_neg]

/-- C2, refuted as stated: on a created UI, 100 consecutive calls of `idle`
leave the brightness at 16777205 × 2⁻²⁴ (about 0.9999993), which is not
`(0.01 × 100) mod 1.0 = 0`; 50 calls leave it at 8388605 × 2⁻²⁴, which is not
0.5; and one call leaves it at 5368709 × 2⁻²⁹, which is not 0.01. -/
theorem brightness_after_ticks_not_exact :
    (instantiate sampleBackend 1 2 sampleFeatures).handle = some sampleUI ∧
    (idleAll sampleUI (List.replicate 100 [])).brightness = 16777205 / 2 ^ 24 ∧
    (idleAll sampleUI (List.replicate 100 [])).brightness
      ≠ fmod (1 / 100 * ((List.replicate 100 ([] : List Event)).length : ℚ)) 1 ∧
    (idleAll sampleUI (List.replicate 100 [])).brightness ≠ 0 ∧
    (idleAll sampleUI (List.replicate 50 [])).brightness = 8388605 / 2 ^ 24 ∧
    (idleAll sampleUI (List.replicate 50 [])).brightness ≠ 1 / 2 ∧
    (idleAll sampleUI [[]]).brightness = 5368709 / 2 ^ 29 ∧
    (idleAll sampleUI [[]]).brightness ≠ 1 / 100 := by
  have h100 : (idleAll sampleUI (List.replicate 100 [])).brightness = 16777205 / 2 ^ 24 := by
    rw [idleAll_brightness, List.length_replicate]
    exact idle_brightness_iterate_100
  have h50 : (idleAll sampleUI (List.replicate 50 [])).brightness = 8388605 / 2 ^ 24 := by
    rw [idleAll_brightness, List.length_replicate]
    exact idle_brightness_iterate_50
  have h1 : (idleAll sampleUI [[]]).brightness = 5368709 / 2 ^ 29 := by
    rw [idleAll_brightness]
    exact idle_brightness_iterate_1
  have hf : fmod (1 / 100 * ((List.replicate 100 ([] : List Event)).length : ℚ)) 1 = 0 := by
    rw [fmod_one_of_nonneg _ (by positivity), List.length_replicate]
    norm_num
  refine ⟨by decide, h100, ?_, ?_, h50, ?_, h1, ?_⟩
  · rw [h100, hf]
    norm_num
  · rw [h100]
    norm_num
  · rw [h50]
    norm_num
  · rw [h1]
    norm_num

/-- C2, amended: after creation the brightness is 0, and after `N` consecutive
calls of `idle` (whatever events are pending at each) it is a `float` in [0,1)
that equals `0.01 × N` modulo 1.0 up to the accumulated rounding error: it
differs from `0.01 × N - k`, for some natural number `k`, by at most
`N × 2⁻²⁴`. After 50 calls it is 8388605 × 2⁻²⁴ (about 0.4999998) and after 100
calls it is 16777205 × 2⁻²⁴ (about 0.9999993), just below 1 and not yet wrapped
back to 0. -/
theorem brightness_after_ticks (env : Backend) (write_function controller : Ptr)
    (features : Option (List LV2_Feature)) (self : GlampUI)
    (h : (instantiate env write_function controller features).handle = some self)
    (pendings : List (List Event)) :
    self.brightness = 0 ∧
    binary32 (idleAll self pendings).brightness = (idleAll self pendings).brightness ∧
    0 ≤ (idleAll self pendings).brightness ∧ (idleAll self pendings).brightness < 1 ∧
    (∃ k : ℕ, |(idleAll self pendings).brightness
        - (1 / 100 * (pendings.length : ℚ) - (k : ℚ))| ≤ (pendings.length : ℚ) / 2 ^ 24) ∧
    (pendings.length = 50 → (idleAll self pendings).brightness = 8388605 / 2 ^ 24) ∧
    (pendings.length = 100 → (idleAll self pendings).brightness = 16777205 / 2 ^ 24) := by
  have h0 : self.brightness = 0 := by
    rw [instantiate_handle env write_function controller features self h]
  rw [idleAll_brightness, h0]
  obtain ⟨i1, i2, i3, i4⟩ := idle_brightness_iterate pendings.length
  refine ⟨rfl, i1, i2, i3, i4, ?_, ?_⟩
  · intro h50
    rw [h50]
    exact idle_brightness_iterate_50
  · intro h100
    rw [h100]
    exact idle_brightness_iterate_100

/-- C2, amended, at 100 calls of `idle` with nothing pending. -/
theorem brightness_after_ticks_witness :
    (instantiate sampleBackend 1 2 sampleFeatures).handle = some sampleUI ∧
    (List.replicate 100 ([] : List Event)).length = 100 ∧
    (idleAll sampleUI (List.replicate 100 [])).brightness = 16777205 / 2 ^ 24 :=
  ⟨by decide, by decide,
   (brightness_after_ticks sampleBackend 1 2 sampleFeatures sampleUI (by decide)
      (List.replicate 100 [])).2.2.2.2.2.2 (by decide)⟩

/-- C3: the brightness is 0 at creation; in every state reached from a
successful `instantiate` by calls of `idle`, `port_event` and `onReshape` it is
a `float` that is at least 0 and below 1; and `idle` maps every `float`
brightness `b` in [0,1) to a `float` in [0,1) by wrapping around, not by
clamping: the new brightness is within 2⁻²⁴ (the rounding) of `b + 0.01` when
that is below 1, and of `b + 0.01 - 1` when it is not. -/
theorem brightness_in_unit_interval (env : Backend) (write_function controller : Ptr)
    (features : Option (List LV2_Feature)) (self : GlampUI)
    (h : (instantiate env write_function controller features).handle = some self)
    (ops : List Op) :
    self.brightness = 0 ∧
    (binary32 (run self ops).brightness = (run self ops).brightness ∧
      0 ≤ (run self ops).brightness ∧ (run self ops).brightness < 1) ∧
    (∀ (s : GlampUI) (pending : List Event),
      binary32 s.brightness = s.brightness → 0 ≤ s.brightness → s.brightness < 1 →
      binary32 (idle s pending).1.brightness = (idle s pending).1.brightness ∧
      0 ≤ (idle s pending).1.brightness ∧ (idle s pending).1.brightness < 1 ∧
      |(idle s pending).1.brightness -
        (if s.brightness + 1 / 100 < 1 then s.brightness + 1 / 100
         else s.brightness + 1 / 100 - 1)| ≤ 1 / 2 ^ 24) := by
  have h0 : self.brightness = 0 := by
    rw [instantiate_handle env write_function controller features self h]
  refine ⟨h0, run_brightness self ops ?_, ?_⟩
  · rw [h0]
    exact ⟨roundBinary_zero 24 (-126), le_rfl, by norm_num⟩
  · intro s pending hs hs0 hs1
    rw [idle_fst]
    exact idle_brightness_spec s.brightness hs hs0 hs1

/-- C3 at a created UI: from the `float` nearest to 0.995 the brightness wraps to
2684357 × 2⁻²⁹, about 0.005. -/
theorem brightness_in_unit_interval_witness :
    (instantiate sampleBackend 1 2 sampleFeatures).handle = some sampleUI ∧
    binary32 ({ sampleUI with brightness := 16693330 / 2 ^ 24 } : GlampUI).brightness
      = ({ sampleUI with brightness := 16693330 / 2 ^ 24 } : GlampUI).brightness ∧
    (0 : ℚ) ≤ ({ sampleUI with brightness := 16693330 / 2 ^ 24 } : GlampUI).brightness ∧
    ({ sampleUI with brightness := 16693330 / 2 ^ 24 } : GlampUI).brightness < 1 ∧
    (idle { sampleUI with brightness := 16693330 / 2 ^ 24 } [Event.refresh]).1.brightness
      = 2684357 / 2 ^ 29 ∧
    (idle { sampleUI with brightness := 16693330 / 2 ^ 24 } [Event.refresh]).1.brightness
      < 1 :=
  ⟨by decide, binary32_sample, by norm_num, by norm_num,
   by rw [idle_fst]; exact idle_brightness_sample,
   ((brightness_in_unit_interval sampleBackend 1 2 sampleFeatures sampleUI (by decide)
      [Op.idle [], Op.onReshape 100 20]).2.2
        { sampleUI with brightness := 16693330 / 2 ^ 24 } [Event.refresh]
        binary32_sample (by norm_num) (by norm_num)).2.2.1⟩

/-! ## Port events, extension data and the status of `idle` -/

/-- C5: for every state, port index, buffer size, format tag and buffer
content, `port_event` hands back the state it was given, every field equal, and
makes no call: nothing is drawn and the host is not called. -/
theorem port_event_noop (self : GlampUI) (port_index buffer_size format : Nat)
    (buffer : List Nat) :
    (port_event self port_index buffer_size format buffer).1 = self ∧
    (port_event self port_index buffer_size format buffer).2 = [] ∧
    (port_event self port_index buffer_size format buffer).1.brightness
      = self.brightness ∧
    (port_event self port_index buffer_size format buffer).1.width = self.width ∧
    (port_event self port_index buffer_size format buffer).1.height = self.height ∧
    (port_event self port_index buffer_size format buffer).1.exit = self.exit :=
  ⟨rfl, rfl, rfl, rfl, rfl, rfl⟩

/-- C7: for every URI string, `extension_data` returns the idle-interface
table `idle_iface` if and only if the string is the idle-interface URI, and
`NULL` for every other string; the one operation of that table is `idle`. -/
theorem extension_data_idle (uri : String) :
    (extension_data uri = some idle_iface ↔ uri = LV2_UI__idleInterface) ∧
    (extension_data uri = none ↔ uri ≠ LV2_UI__idleInterface) ∧
    idle_iface.idle = idle := by
  unfold extension_data
  by_cases h : uri = LV2_UI__idleInterface
  · simp [h, idle_iface]
  · simp [h, idle_iface]

/-- C8: for every state and every list of pending events, `idle` returns the
status 0. -/
theorem idle_returns_zero (self : GlampUI) (pending : List Event) :
    (idle self pending).2.2 = 0 :=
  rfl

/-! ## Reshape and the stored size -/

/-- C9: `onReshape` hands back the state it was given, whatever the new size
`W`×`H`; the calls it makes set the viewport to `0, 0, W, H` and the
orthographic range to left 0, right `W`, bottom `H`, top 0; and after any
sequence of `idle`, `port_event` and `onReshape` calls on a created UI (size
events delivered inside `idle` included) the stored width and height are still
256 and 32. -/
theorem onReshape_keeps_state (env : Backend) (write_function controller : Ptr)
    (features : Option (List LV2_Feature)) (self : GlampUI)
    (h : (instantiate env write_function controller features).handle = some self)
    (ops : List Op) (s : GlampUI) (view : Ptr) (W H : Int) :
    (onReshape s view W H).1 = s ∧
    (onReshape s view W H).2 =
      [Call.glMatrixMode GLenum.GL_PROJECTION, Call.glLoadIdentity,
       Call.glViewport 0 0 W H, Call.glOrtho 0 W H 0 0 1,
       Call.glMatrixMode GLenum.GL_MODELVIEW, Call.glDisable GLenum.GL_DEPTH_TEST,
       Call.glLoadIdentity] ∧
    step s (Op.onReshape W H) = s ∧
    (run self ops).width = 256 ∧ (run self ops).height = 32 := by
  have hs := instantiate_handle env write_function controller features self h
  obtain ⟨_, hw, hh⟩ := run_frame self ops
  refine ⟨rfl, rfl, rfl, ?_, ?_⟩
  · rw [hw, hs]
  · rw [hh, hs]

/-- C9 at a created UI reshaped to 100×20 between two calls of `idle`, the
second of which also delivers a size event. -/
theorem onReshape_keeps_state_witness :
    (instantiate sampleBackend 1 2 sampleFeatures).handle = some sampleUI ∧
    (run sampleUI [Op.idle [], Op.onReshape 100 20,
      Op.idle [Event.size 800 600, Event.refresh]]).width = 256 ∧
    (run sampleUI [Op.idle [], Op.onReshape 100 20,
      Op.idle [Event.size 800 600, Event.refresh]]).height = 32 :=
  ⟨by decide,
   (onReshape_keeps_state sampleBackend 1 2 sampleFeatures sampleUI (by decide)
      [Op.idle [], Op.onReshape 100 20, Op.idle [Event.size 800 600, Event.refresh]]
      sampleUI 5 100 20).2.2.2⟩

/-! ## The quadrilateral drawn by `onDisplay` -/

theorem vertices_onDisplay (self : GlampUI) (view : Ptr) :
    vertices (onDisplay self view).2 =
      [(binary32 (binary64 ((self.width : ℚ) - 2)),
        binary32 (binary64 ((self.height : ℚ) - 2))),
       (binary32 (binary64 ((self.width : ℚ) - 2)), binary32 2),
       (binary32 2, binary32 2),
       (binary32 2, binary32 (binary64 ((self.height : ℚ) - 2)))] :=
  rfl

theorem vertices_idle_nil (self : GlampUI) :
    vertices (idle self []).2.1 =
      [(binary32 (binary64 ((self.width : ℚ) - 2)),
        binary32 (binary64 ((self.height : ℚ) - 2))),
       (binary32 (binary64 ((self.width : ℚ) - 2)), binary32 2),
       (binary32 2, binary32 2),
       (binary32 2, binary32 (binary64 ((self.height : ℚ) - 2)))] :=
  rfl

/-- The corner coordinates that `onDisplay` passes for the stored size 256×32. -/
theorem sample_corners :
    binary32 (binary64 ((sampleUI.width : ℚ) - 2)) = 254 ∧
    binary32 (binary64 ((sampleUI.height : ℚ) - 2)) = 30 ∧
    binary32 2 = 2 := by
  have hw : ((sampleUI.width : ℚ) - 2) = ((254 : ℕ) : ℚ) := by norm_num [sampleUI]
  have hh : ((sampleUI.height : ℚ) - 2) = ((30 : ℕ) : ℚ) := by norm_num [sampleUI]
  have h2 : binary32 2 = 2 := by
    have := roundBinary_natCast 23 (-126) 2 (by norm_num) (by norm_num)
    simpa using this
  rw [hw, hh, binary32_binary64_natCast 254 (by norm_num),
    binary32_binary64_natCast 30 (by norm_num)]
  exact ⟨by norm_num, by norm_num, h2⟩

/-- C6, evaluated: `instantiate` creates the window at 640×480 and sets the
projection for 640×480, yet the quadrilateral that the next `idle` draws has the
vertices (254,30), (254,2), (2,2), (2,30), computed from the stored size 256×32,
and not (638,478), (638,2), (2,2), (2,478). After the window is reshaped to
100×20 the same vertices are drawn, so the quadrilateral reaches beyond the
window. -/
theorem onDisplay_quad_ignores_window_size :
    (instantiate sampleBackend 1 2 sampleFeatures).handle = some sampleUI ∧
    Call.glfwCreateWindow 640 480 "Glamp"
      ∈ (instantiate sampleBackend 1 2 sampleFeatures).calls ∧
    Call.glOrtho 0 640 480 0 0 1
      ∈ (instantiate sampleBackend 1 2 sampleFeatures).calls ∧
    vertices (idle sampleUI []).2.1 = [(254, 30), (254, 2), (2, 2), (2, 30)] ∧
    vertices (idle sampleUI []).2.1
      ≠ [(640 - 2, 480 - 2), (640 - 2, 2), (2, 2), (2, 480 - 2)] ∧
    vertices (onDisplay (run sampleUI [Op.onReshape 100 20]) 5).2
      = [(254, 30), (254, 2), (2, 2), (2, 30)] ∧
    vertices (onDisplay (run sampleUI [Op.onReshape 100 20]) 5).2
      ≠ [(100 - 2, 20 - 2), (100 - 2, 2), (2, 2), (2, 20 - 2)] := by
  have hrun : run sampleUI [Op.onReshape 100 20] = sampleUI := rfl
  obtain ⟨hw, hh, h2⟩ := sample_corners
  rw [vertices_idle_nil, hrun, vertices_onDisplay, hw, hh, h2]
  refine ⟨by decide, by decide, by decide, ?_, ?_, ?_, ?_⟩ <;>
    norm_num

end Glamp
